import Mathlib

/-!
# Verification of the stock-bot market-signal pipeline

Shallow embedding of the pure derivation core of `bot.py`:
the indicator engine (`ema`, `calc_vwap`, `volume_spike`), the intraday
bar-series parser (`parse_intraday`), the news deduplicator
(`get_news` and the seen-set update done by `news_loop`), the options-flow
summarizer (`polygon_options_flow`), and the truthiness-based display
decisions of `price_loop`.

Modelling conventions:
* Python floats are modelled as exact rationals (`ℚ`); the program only
  adds, multiplies and divides, and every numeric claim carries a
  tolerance that exact arithmetic meets trivially.
* Python ints are `ℤ`.
* A Python function that can return `None` returns an `Option`.
* A `try/except` block that swallows every exception and returns `None`
  is modelled by propagating failure as `none` (for `parse_intraday`)
  or `Except.error` caught at the block boundary (for the options
  summarizer), so a raised exception and a returned `None` are the same
  observable outcome, exactly as at the call sites in `bot.py`.
* Python truthiness (`if not uid`, `if ema9 and ema21`, `x or y`) is
  modelled explicitly: `None` and `""` and `0.0` are falsy.
-/

namespace StockBot

/-! ## Indicator engine -/

/-- `ema` from `bot.py`:
```
def ema(series, period):
    if len(series) < period: return None
    k = 2 / (period + 1)
    e = series[0]
    for x in series[1:]:
        e = x * k + e * (1 - k)
    return e
```
For `1 ≤ period` the guard guarantees the series is nonempty, so
`series[0]` is `series.headI`. -/
def ema (series : List ℚ) (period : ℕ) : Option ℚ :=
  if series.length < period then none
  else
    let k : ℚ := 2 / (period + 1)
    some (series.tail.foldl (fun e x => x * k + e * (1 - k)) series.headI)

/-- The spec's recurrence `e_i = x_i*k + e_{i-1}*(1-k)`, applied
left-to-right over the remaining elements starting from the seed. -/
def emaRec (k : ℚ) : List ℚ → ℚ → ℚ
  | [], e => e
  | x :: xs, e => emaRec k xs (x * k + e * (1 - k))

/-- `calc_vwap` from `bot.py`:
```
def calc_vwap(prices, volumes):
    if not prices or not volumes or len(prices) != len(volumes): return None
    cum_pv = 0.0; cum_v = 0
    for (h,l,c), v in zip(prices, volumes):
        typical = (h + l + c) / 3.0
        cum_pv += typical * v
        cum_v += v
    if cum_v == 0: return None
    return cum_pv / cum_v
```
The two running accumulators are the sums over the zipped list. -/
def calc_vwap (prices : List (ℚ × ℚ × ℚ)) (volumes : List ℤ) : Option ℚ :=
  if prices = [] ∨ volumes = [] ∨ prices.length ≠ volumes.length then none
  else if (((prices.zip volumes).map Prod.snd).sum : ℤ) = 0 then none
  else some ((((prices.zip volumes).map
      (fun pr => ((pr.1.1 + pr.1.2.1 + pr.1.2.2) / 3) * (pr.2 : ℚ))).sum)
    / ((((prices.zip volumes).map Prod.snd).sum : ℤ) : ℚ))

/-- `volume_spike` from `bot.py`:
```
def volume_spike(vols):
    if len(vols) < 25: return None
    baseline = sum(vols[-25:-5]) / 20.0
    current = vols[-1]
    if baseline <= 0: return None
    ratio = current / baseline
    if ratio >= 2.0: return (ratio, current)
    return None
```
With `25 ≤ len vols` the Python slice `vols[-25:-5]` is the 20 elements
from index `len-25` to `len-6`, i.e. `(vols.drop (len-25)).take 20`, and
`vols[-1]` is the last element. -/
def volume_spike (vols : List ℤ) : Option (ℚ × ℤ) :=
  if vols.length < 25 then none
  else if (((vols.drop (vols.length - 25)).take 20).map (fun n => (n : ℚ))).sum / 20 ≤ 0
    then none
  else if 2 ≤ ((vols.getLast?.getD 0 : ℤ) : ℚ) /
      ((((vols.drop (vols.length - 25)).take 20).map (fun n => (n : ℚ))).sum / 20) then
    some (((vols.getLast?.getD 0 : ℤ) : ℚ) /
      ((((vols.drop (vols.length - 25)).take 20).map (fun n => (n : ℚ))).sum / 20),
      vols.getLast?.getD 0)
  else none

/-! ## Basic lemmas about the indicator engine -/

lemma emaRec_eq_foldl (k : ℚ) (xs : List ℚ) (e : ℚ) :
    emaRec k xs e = xs.foldl (fun e x => x * k + e * (1 - k)) e := by
  induction xs generalizing e with
  | nil => rfl
  | cons x xs ih => simp [emaRec, List.foldl_cons, ih]

/-! ## Bar-series parser -/

/-- One raw bar value of the `"Time Series (1min)"` payload.  `bot.py`
reads the fields `"4. close"`, `"2. high"`, `"3. low"`, `"5. volume"` and
converts each with `float(...)` (the volume additionally with `int(...)`).
A field is modelled as `some q` when the conversion succeeds with value
`q`, and `none` when the key is missing or `float(...)` raises on its
value; either way the access raises in Python, so both failure shapes are
one `none`. -/
structure RawBar where
  high : Option ℚ
  low : Option ℚ
  close : Option ℚ
  volume : Option ℚ
deriving DecidableEq, Repr

/-- Python `int(...)` on a float: truncation toward zero. -/
def truncInt (q : ℚ) : ℤ := if 0 ≤ q then ⌊q⌋ else ⌈q⌉

/-- The body of the `for _, v in items:` loop of `parse_intraday` for one
bar: extract close, high, low, volume; any missing or non-numeric field
raises, which the surrounding `try` turns into a `None` result.  On
success the bar contributes `(close, (high, low, close), int(volume))`. -/
def barValues (b : RawBar) : Option (ℚ × (ℚ × ℚ × ℚ) × ℤ) :=
  match b.close, b.high, b.low, b.volume with
  | some c, some h, some l, some v => some (c, (h, l, c), truncInt v)
  | _, _, _, _ => none

/-- First-failure traversal: the Python loop appends one row per bar and
aborts the whole parse (via the exception handler) at the first bad bar.
This is `mapM` for `Option`, written as plain recursion. -/
def optTraverse (f : α → Option β) : List α → Option (List β)
  | [] => some []
  | x :: xs =>
    match f x, optTraverse f xs with
    | some y, some ys => some (y :: ys)
    | _, _ => none

/-- `sorted(ts.items(), key=lambda kv: kv[0])`: the timestamp-keyed items
sorted ascending by timestamp string. -/
def sortItems (ts : List (String × RawBar)) : List (String × RawBar) :=
  ts.mergeSort (fun a b => decide (a.1 ≤ b.1))

/-- `parse_intraday` from `bot.py` (lines 108-130).  The input models
`series_json.get("Time Series (1min)")`: `none` when the key is missing
(then `ts = {}` and the emptiness guard fires), otherwise the dict's
items.  Returns the four parallel outputs
`(closes, (high,low,close) triples, volumes, last close)` in ascending
timestamp order, or `none` on an empty or malformed payload
(`closes[-1]` on an empty list would also raise, hence the `getLast?`
match). -/
def parse_intraday (series_json : Option (List (String × RawBar))) :
    Option (List ℚ × List (ℚ × ℚ × ℚ) × List ℤ × ℚ) :=
  let ts := series_json.getD []
  if ts = [] then none
  else
    match optTraverse (fun kv => barValues kv.2) (sortItems ts) with
    | none => none
    | some rows =>
      let closes := rows.map (fun r => r.1)
      match closes.getLast? with
      | none => none
      | some last =>
          some (closes, rows.map (fun r => r.2.1), rows.map (fun r => r.2.2), last)

/-! ## News deduplicator -/

/-- One raw feed item as accessed by `get_news`: `item.get("uuid")`,
`item.get("url")`, `item.get("title")`, and the list of
`t.get("ticker")` values of `item.get("ticker_sentiment", [])`. -/
structure RawNews where
  uuid : Option String
  url : Option String
  title : Option String
  ticker_sentiment : List (Option String)
deriving DecidableEq, Repr

/-- Python truthiness of an optional string: `None` and `""` are falsy. -/
def strTruthy : Option String → Bool
  | none => false
  | some s => decide (s ≠ "")

/-- A normalized news item as built by `get_news`. -/
structure NewsItem where
  id : String
  headline : String
  url : Option String
  tickers : List String
deriving DecidableEq, Repr

/-- The identifier `get_news` would use for an item:
`uid = item.get("uuid") or item.get("url")`, and `None` when `uid` is
falsy (the `if not uid: continue` branch). -/
def resolveId (item : RawNews) : Option String :=
  let uid := if strTruthy item.uuid then item.uuid else item.url
  if strTruthy uid then uid else none

/-- `[t.get("ticker") for t in item.get("ticker_sentiment", []) if t.get("ticker")]`. -/
def tickersOf (l : List (Option String)) : List String :=
  l.filterMap (fun t => if strTruthy t then t else none)

/-- The loop body of `get_news` for one feed item: skip when the item has
no truthy identifier or the identifier is already in the seen-set,
otherwise normalize it. -/
def newsOf (posted : List String) (item : RawNews) : Option NewsItem :=
  (resolveId item).bind (fun u =>
    if u ∈ posted then none
    else
      some { id := u
             headline := if strTruthy item.title then item.title.getD "" else "News"
             url := item.url
             tickers := tickersOf item.ticker_sentiment })

/-- `get_news` from `bot.py` (pure part, lines 156-165): normalize the
feed, keeping unseen identifiable items in feed order, and truncate to
the first 10 (`return news[:10]`).  The seen-set is NOT modified here. -/
def get_news (posted : List String) (feed : List RawNews) : List NewsItem :=
  (feed.filterMap (newsOf posted)).take 10

/-- The seen-set after one news cycle: `news_loop` runs
`posted_news_ids.add(n["id"])` for every item returned by `get_news`
(lines 264-265), i.e. only for the emitted, post-truncation items. -/
def newsCyclePosted (posted : List String) (feed : List RawNews) : List String :=
  posted ++ (get_news posted feed).map NewsItem.id

/-- A whole run of the news task: one `get_news` + marking cycle per
fetched feed, threading the process-wide seen-set; returns the full
published output (concatenation of the per-cycle outputs, `news_loop`
publishes every item `get_news` returned) and the final seen-set. -/
def runCycles (posted : List String) : List (List RawNews) → List NewsItem × List String
  | [] => ([], posted)
  | feed :: rest =>
    let news := get_news posted feed
    let r := runCycles (newsCyclePosted posted feed) rest
    (news ++ r.1, r.2)

/-! ## Options-flow summarizer -/

/-- The day-volume field of one option contract,
`x.get("day", {}).get("volume", 0)` fed to `int(...)`:
`missing` when the `day` dict or its `volume` key is absent (the defaults
make `int(0) = 0`), `val n` when `int(...)` succeeds with `n`, and
`malformed` when `int(...)` raises on the value. -/
inductive VolField
  | missing
  | val (n : ℤ)
  | malformed
deriving DecidableEq, Repr

/-- One contract record of the snapshot's `results` list:
`x.get("details", {}).get("contract_type")` and the day-volume field. -/
structure Contract where
  contract_type : Option String
  volume : VolField
deriving DecidableEq, Repr

/-- `sum(int(x.get("day",{}).get("volume",0)) for x in results if
x.get("details",{}).get("contract_type") == ty)`: left-to-right sum over
the contracts declaring type `ty`; the first malformed volume among them
raises (`Except.error`), volumes of other-typed contracts are never
converted. -/
def sumVols (ty : String) : List Contract → Except Unit ℤ
  | [] => .ok 0
  | x :: xs =>
    if x.contract_type = some ty then
      match x.volume with
      | .malformed => .error ()
      | .missing => sumVols ty xs
      | .val n => (sumVols ty xs).map (fun r => n + r)
    else sumVols ty xs

/-- The snapshot payload: `data.get("results")`, `none` when the key is
missing (then `or []` substitutes the empty list). -/
structure PolygonPayload where
  results : Option (List Contract)
deriving DecidableEq, Repr

/-- `polygon_options_flow` from `bot.py` (lines 170-189), after the fetch:
the input is `none` when the key is unset, the fetch failed, or the
response is falsy (`if not data: return None`).  The `try` block sums
call and put volumes; any exception inside it yields `None`; a (0,0)
summary also yields `None`. -/
def polygon_options_flow (data : Option PolygonPayload) : Option (ℤ × ℤ) :=
  match data with
  | none => none
  | some d =>
    let results := d.results.getD []
    match sumVols "call" results, sumVols "put" results with
    | .ok c, .ok p => if c = 0 ∧ p = 0 then none else some (c, p)
    | _, _ => none

/-! ## price_loop output composition -/

/-- Python truthiness of an optional float: `None` and `0.0` are falsy. -/
def qTruthy : Option ℚ → Bool
  | none => false
  | some q => decide (q ≠ 0)

/-- `price_loop` line 238: the EMA/trend annotation is emitted only when
`if ema9 and ema21:` is truthy. -/
def emaShown (ema9 ema21 : Option ℚ) : Bool :=
  qTruthy ema9 && qTruthy ema21

/-- `price_loop` line 242: `vwap_txt = ... if vwap_val else ""`. -/
def vwapShown (vwap_val : Option ℚ) : Bool :=
  qTruthy vwap_val

/-- Python `closes[-n:]` (the most recent `n` entries, all if fewer). -/
def lastN (n : ℕ) (l : List α) : List α := l.drop (l.length - n)

/-! ## Claim C1: EMA -/

/-- **C1.** For every float series and period (≥ 1, as used with 9 and 21),
`ema series period` is `none` iff `series.length < period`; otherwise it
is the value obtained by seeding with the first element and applying the
recurrence `e_i = x_i*k + e_{i-1}*(1-k)`, `k = 2/(period+1)`,
left-to-right over the remaining elements; and for `series = [10,20,30]`,
`period = 2` the result matches `30*(2/3) + (20*(2/3) + 10*(1/3))*(1/3)`
within `1e-9` (exactly, in fact). -/
theorem C1_ema_correct (series : List ℚ) (period : ℕ) (hp : 1 ≤ period) :
    (ema series period = none ↔ series.length < period) ∧
    (∀ x rest, series = x :: rest → period ≤ series.length →
      ema series period = some (emaRec (2 / ((period : ℚ) + 1)) rest x)) ∧
    (∃ v, ema [10, 20, 30] 2 = some v ∧
      |v - (30 * (2/3) + (20 * (2/3) + 10 * (1/3)) * (1/3))| < 1 / 1000000000) := by
  refine ⟨?_, ?_, ?_⟩
  · unfold ema
    split
    · simp [*]
    · simp; omega
  · rintro x rest rfl hlen
    unfold ema
    rw [if_neg (by omega)]
    simp [emaRec_eq_foldl]
  · refine ⟨230/9, by norm_num [ema, List.foldl], by norm_num⟩

theorem C1_ema_correct_witness :
    ema [10, 20, 30] 2 = some (emaRec (2 / ((2 : ℚ) + 1)) [20, 30] 10) :=
  (C1_ema_correct [10, 20, 30] 2 (by norm_num)).2.1 10 [20, 30] rfl (by norm_num)

/-! ## Claim C2: volume spike -/

/-- The baseline of the spike detector in the claim's own words: the
arithmetic mean of the 20 samples ending 5 positions before the most
recent one, i.e. `vols[-25:-5]` written as take-then-drop. -/
def spikeBaseline (vols : List ℤ) : ℚ :=
  (((vols.take (vols.length - 5)).drop (vols.length - 25)).map
    (fun n => (n : ℚ))).sum / 20

/-- **C2.** `volume_spike vols` is `none` when `vols.length < 25` or the
baseline (mean of the 20 samples ending 5 positions before the most
recent, i.e. `vols[-25:-5]`) is ≤ 0; otherwise, with
`ratio = current / baseline` for the most recent sample `current`, it
returns `(ratio, current)` exactly when `ratio ≥ 2` and `none` otherwise;
with a 20-sample baseline averaging 10 it fires at current 200 with
ratio 20 and does not fire at current 15. -/
theorem C2_volume_spike_correct (vols : List ℤ) :
    (vols.length < 25 → volume_spike vols = none) ∧
    (∀ hne : vols ≠ [], 25 ≤ vols.length →
      (spikeBaseline vols ≤ 0 → volume_spike vols = none) ∧
      (0 < spikeBaseline vols →
        (2 ≤ ((vols.getLast hne : ℤ) : ℚ) / spikeBaseline vols →
          volume_spike vols =
            some (((vols.getLast hne : ℤ) : ℚ) / spikeBaseline vols, vols.getLast hne)) ∧
        (((vols.getLast hne : ℤ) : ℚ) / spikeBaseline vols < 2 →
          volume_spike vols = none))) ∧
    volume_spike (List.replicate 20 10 ++ [10, 10, 10, 10, 200]) = some (20, 200) ∧
    volume_spike (List.replicate 20 10 ++ [10, 10, 10, 10, 15]) = none := by
  refine ⟨?_, ?_, by norm_num [volume_spike, List.replicate],
    by norm_num [volume_spike, List.replicate]⟩
  · intro h
    unfold volume_spike
    rw [if_pos h]
  · intro hne hlen
    have hslice : spikeBaseline vols =
        (((vols.drop (vols.length - 25)).take 20).map (fun n => (n : ℚ))).sum / 20 := by
      unfold spikeBaseline
      rw [List.drop_take]
      have h20 : vols.length - 5 - (vols.length - 25) = 20 := by omega
      rw [h20]
    have hlast : (vols.getLast?).getD 0 = vols.getLast hne := by
      rw [List.getLast?_eq_getLast vols hne]
      rfl
    refine ⟨?_, ?_⟩
    · intro hb
      rw [hslice] at hb
      unfold volume_spike
      rw [if_neg (by omega), if_pos hb]
    · intro hb
      rw [hslice] at hb
      constructor
      · intro hr
        rw [hslice, ← hlast] at hr
        unfold volume_spike
        rw [if_neg (by omega), if_neg (not_le.mpr hb), if_pos hr, hslice, hlast]
      · intro hr
        rw [hslice, ← hlast] at hr
        unfold volume_spike
        rw [if_neg (by omega), if_neg (not_le.mpr hb), if_neg (not_le.mpr hr)]

theorem C2_volume_spike_correct_witness :
    volume_spike (List.replicate 20 10 ++ [10, 10, 10, 10, 200]) = some (20, 200) :=
  (C2_volume_spike_correct (List.replicate 20 10 ++ [10, 10, 10, 10, 200])).2.2.1

/-! ## Claim C5: VWAP -/

/-- **C5.** `calc_vwap prices volumes` is `none` exactly when either list
is empty, the lengths differ, or the cumulative volume is zero; otherwise
it is `Σ(typical_i × volume_i) / Σ(volume_i)` with
`typical_i = (high_i + low_i + close_i)/3`; and the two-bar example
evaluates to `10.5`. -/
theorem C5_calc_vwap_correct (prices : List (ℚ × ℚ × ℚ)) (volumes : List ℤ) :
    (calc_vwap prices volumes = none ↔
      prices = [] ∨ volumes = [] ∨ prices.length ≠ volumes.length ∨ volumes.sum = 0) ∧
    (prices ≠ [] → prices.length = volumes.length → volumes.sum ≠ 0 →
      calc_vwap prices volumes =
        some (((prices.zip volumes).map
          (fun pr => ((pr.1.1 + pr.1.2.1 + pr.1.2.2) / 3) * (pr.2 : ℚ))).sum
            / ((volumes.sum : ℤ) : ℚ))) ∧
    calc_vwap [(10, 8, 9), (12, 10, 11)] [100, 300] = some (21/2) := by
  refine ⟨?_, ?_, by rw [calc_vwap, if_neg (by simp), if_neg (by simp)]; norm_num⟩
  · by_cases hg : prices = [] ∨ volumes = [] ∨ prices.length ≠ volumes.length
    · unfold calc_vwap
      rw [if_pos hg]
      simp only [true_iff]
      tauto
    · push_neg at hg
      obtain ⟨hp, hv, hl⟩ := hg
      have hsnd : (prices.zip volumes).map Prod.snd = volumes :=
        List.map_snd_zip prices volumes (le_of_eq hl.symm)
      unfold calc_vwap
      rw [if_neg (by tauto), hsnd]
      by_cases hs : volumes.sum = 0
      · rw [if_pos hs]
        simp only [true_iff]
        tauto
      · rw [if_neg hs]
        constructor
        · intro h
          exact absurd h (by simp)
        · intro h
          rcases h with h | h | h | h
          · exact absurd h hp
          · exact absurd h hv
          · exact absurd hl h
          · exact absurd h hs
  · intro hp hl hs
    have hv : volumes ≠ [] := by
      intro h
      apply hp
      rw [← List.length_eq_zero] at h ⊢
      omega
    have hsnd : (prices.zip volumes).map Prod.snd = volumes :=
      List.map_snd_zip prices volumes (le_of_eq hl.symm)
    unfold calc_vwap
    rw [if_neg (by tauto), hsnd, if_neg hs]

theorem C5_calc_vwap_correct_witness :
    calc_vwap [(10, 8, 9), (12, 10, 11)] [100, 300] = some (21/2) :=
  (C5_calc_vwap_correct [(10, 8, 9), (12, 10, 11)] [100, 300]).2.2

/-! ## Claim C4: options-flow summarizer -/

/-- The integer a day-volume field converts to when the conversion does
not raise: a missing field defaults to 0. -/
def volInt : VolField → ℤ
  | .missing => 0
  | .val n => n
  | .malformed => 0

/-- Total day volume of the contracts declaring type `ty` (missing
volumes contributing 0), as the claim describes the summation. -/
def typedVolume (ty : String) (results : List Contract) : ℤ :=
  ((results.filter (fun x => x.contract_type = some ty)).map
    (fun x => volInt x.volume)).sum

lemma sumVols_ok (ty : String) (l : List Contract)
    (h : ∀ x ∈ l, x.contract_type = some ty → x.volume ≠ VolField.malformed) :
    sumVols ty l = .ok (typedVolume ty l) := by
  induction l with
  | nil => rfl
  | cons x xs ih =>
    have ihs := ih (fun y hy => h y (List.mem_cons_of_mem x hy))
    by_cases hty : x.contract_type = some ty
    · have hnm := h x (List.mem_cons_self x xs) hty
      unfold sumVols
      rw [if_pos hty]
      cases hv : x.volume with
      | malformed => exact absurd hv hnm
      | missing =>
        rw [ihs]
        simp [typedVolume, List.filter_cons, hty, hv, volInt]
      | val n =>
        rw [ihs]
        simp [typedVolume, List.filter_cons, hty, hv, volInt, Except.map]
    · unfold sumVols
      rw [if_neg hty, ihs]
      simp [typedVolume, List.filter_cons, hty]

lemma sumVols_error (ty : String) (l : List Contract)
    (h : ∃ x ∈ l, x.contract_type = some ty ∧ x.volume = VolField.malformed) :
    sumVols ty l = .error () := by
  induction l with
  | nil => simp at h
  | cons x xs ih =>
    rcases h with ⟨y, hy, hty, hv⟩
    rcases List.mem_cons.mp hy with rfl | hmem
    · unfold sumVols
      rw [if_pos hty, hv]
    · by_cases hxty : x.contract_type = some ty
      · unfold sumVols
        rw [if_pos hxty]
        have ihe := ih ⟨y, hmem, hty, hv⟩
        cases hxv : x.volume with
        | malformed => rfl
        | missing => rw [ihe]
        | val n => rw [ihe]; rfl
      · unfold sumVols
        rw [if_neg hxty]
        exact ih ⟨y, hmem, hty, hv⟩

/-- **C4 (counterexample).** The claim says a contract whose volume field
is malformed contributes zero rather than failing the whole summary, so
`[{call,50},{put,30},{call, malformed volume}]` would have to summarize
to `{calls:50, puts:30}` — the same list with the malformed contract
removed does; with it, `int(...)` raises inside the `sum(...)` generator,
the `except` returns `None`, and the whole summary is absent. -/
theorem C4_options_flow_counterexample :
    polygon_options_flow (some ⟨some [⟨some "call", .val 50⟩, ⟨some "put", .val 30⟩]⟩)
      = some (50, 30) ∧
    polygon_options_flow (some ⟨some [⟨some "call", .val 50⟩, ⟨some "put", .val 30⟩,
      ⟨some "call", .malformed⟩]⟩) = none := by
  constructor <;> rfl

/-- **C4 (amended).** The summarizer sums per-contract day volume split
by declared contract type; a contract whose type or volume field is
*missing* contributes zero, and a contract whose declared type is neither
`"call"` nor `"put"` contributes zero, but a *malformed* volume on a
call- or put-typed contract aborts the whole summary to absent (the
raised conversion error is caught, never propagated).  The result is
absent exactly when both totals are zero or any fetch/parse error occurs;
`[{call,50},{put,30},{call, vol missing}]` yields `{calls:50, puts:30}`. -/
theorem C4_options_flow_amended (data : Option PolygonPayload) :
    (data = none → polygon_options_flow data = none) ∧
    (∀ d results, data = some d → d.results = some results →
      ((∀ x ∈ results,
          x.contract_type = some "call" ∨ x.contract_type = some "put" →
          x.volume ≠ VolField.malformed) →
        polygon_options_flow data =
          if typedVolume "call" results = 0 ∧ typedVolume "put" results = 0 then none
          else some (typedVolume "call" results, typedVolume "put" results)) ∧
      ((∃ x ∈ results,
          (x.contract_type = some "call" ∨ x.contract_type = some "put") ∧
          x.volume = VolField.malformed) →
        polygon_options_flow data = none)) ∧
    polygon_options_flow (some ⟨some [⟨some "call", .val 50⟩, ⟨some "put", .val 30⟩,
      ⟨some "call", .missing⟩]⟩) = some (50, 30) := by
  refine ⟨?_, ?_, by rfl⟩
  · rintro rfl
    rfl
  · rintro d results rfl hres
    constructor
    · intro h
      have hc := sumVols_ok "call" results
        (fun x hx hty => h x hx (Or.inl hty))
      have hp := sumVols_ok "put" results
        (fun x hx hty => h x hx (Or.inr hty))
      simp only [polygon_options_flow, hres, Option.getD_some, hc, hp]
    · rintro ⟨x, hx, hty | hty, hv⟩
      · have hc := sumVols_error "call" results ⟨x, hx, hty, hv⟩
        simp only [polygon_options_flow, hres, Option.getD_some, hc]
      · have hp := sumVols_error "put" results ⟨x, hx, hty, hv⟩
        simp only [polygon_options_flow, hres, Option.getD_some, hp]
        cases hcall : sumVols "call" results <;> rfl

theorem C4_options_flow_amended_witness :
    polygon_options_flow (some ⟨some [⟨some "call", .val 50⟩, ⟨some "put", .val 30⟩,
      ⟨some "call", .malformed⟩]⟩) = none :=
  ((C4_options_flow_amended (some ⟨some [⟨some "call", .val 50⟩, ⟨some "put", .val 30⟩,
      ⟨some "call", .malformed⟩]⟩)).2.1
    ⟨some [⟨some "call", .val 50⟩, ⟨some "put", .val 30⟩, ⟨some "call", .malformed⟩]⟩
    [⟨some "call", .val 50⟩, ⟨some "put", .val 30⟩, ⟨some "call", .malformed⟩]
    rfl rfl).2
    ⟨⟨some "call", .malformed⟩, by simp, Or.inl rfl, rfl⟩

/-! ## Claim C10: truthiness-based display decisions -/

lemma foldl_ema_zero (k : ℚ) (xs : List ℚ) (hxs : ∀ x ∈ xs, x = 0) :
    xs.foldl (fun e x => x * k + e * (1 - k)) 0 = 0 := by
  induction xs with
  | nil => rfl
  | cons x xs ih =>
    have hx := hxs x (List.mem_cons_self x xs)
    have hacc : x * k + 0 * (1 - k) = 0 := by rw [hx]; ring
    rw [List.foldl_cons, hacc]
    exact ih (fun y hy => hxs y (List.mem_cons_of_mem x hy))

/-- **C10.** Presence of an indicator in the price-cycle message is
decided by Python numeric truthiness, not a `None` check: if the EMA over
the last 50 closes computes to exactly `0.0` for period 9 or period 21,
the EMA/trend annotation is omitted even though both EMAs were computed
(`isSome`), and a computed `0.0` VWAP is likewise omitted; a computed
zero is indistinguishable from insufficient data (`qTruthy (some 0) =
qTruthy none`). -/
theorem C10_truthiness (closes : List ℚ) (hlc : List (ℚ × ℚ × ℚ)) (vols : List ℤ) :
    (ema (lastN 50 closes) 9 = some 0 → (ema (lastN 50 closes) 21).isSome →
      emaShown (ema (lastN 50 closes) 9) (ema (lastN 50 closes) 21) = false) ∧
    (ema (lastN 50 closes) 21 = some 0 → (ema (lastN 50 closes) 9).isSome →
      emaShown (ema (lastN 50 closes) 9) (ema (lastN 50 closes) 21) = false) ∧
    (calc_vwap (lastN 120 hlc) (lastN 120 vols) = some 0 →
      vwapShown (calc_vwap (lastN 120 hlc) (lastN 120 vols)) = false) ∧
    qTruthy (some 0) = qTruthy none := by
  refine ⟨?_, ?_, ?_, by rfl⟩
  · intro h9 _
    rw [emaShown, h9]
    simp [qTruthy]
  · intro h21 _
    rw [emaShown, h21]
    simp [qTruthy]
  · intro hv
    rw [vwapShown, hv]
    simp [qTruthy]

theorem C10_truthiness_witness :
    emaShown (ema (lastN 50 (List.replicate 50 (0 : ℚ))) 9)
      (ema (lastN 50 (List.replicate 50 (0 : ℚ))) 21) = false := by
  have h9 : ema (lastN 50 (List.replicate 50 (0 : ℚ))) 9 = some 0 := by
    rw [lastN]
    simp only [List.length_replicate, Nat.sub_self, List.drop_zero]
    rw [ema, if_neg (by simp)]
    have hh : (List.replicate 50 (0 : ℚ)).headI = 0 := by rfl
    have ht : (List.replicate 50 (0 : ℚ)).tail = List.replicate 49 0 := by rfl
    rw [hh, ht]
    exact congrArg some (foldl_ema_zero _ _ (fun x hx => List.eq_of_mem_replicate hx))
  have h21 : ema (lastN 50 (List.replicate 50 (0 : ℚ))) 21 = some 0 := by
    rw [lastN]
    simp only [List.length_replicate, Nat.sub_self, List.drop_zero]
    rw [ema, if_neg (by simp)]
    have hh : (List.replicate 50 (0 : ℚ)).headI = 0 := by rfl
    have ht : (List.replicate 50 (0 : ℚ)).tail = List.replicate 49 0 := by rfl
    rw [hh, ht]
    exact congrArg some (foldl_ema_zero _ _ (fun x hx => List.eq_of_mem_replicate hx))
  exact (C10_truthiness (List.replicate 50 0) [] []).1 h9 (by rw [h21]; rfl)

/-! ## News deduplicator lemmas -/

lemma newsOf_some {posted : List String} {item : RawNews} {it : NewsItem}
    (h : newsOf posted item = some it) :
    resolveId item = some it.id ∧ it.id ∉ posted := by
  unfold newsOf at h
  cases hr : resolveId item with
  | none => rw [hr, Option.none_bind] at h; exact absurd h (by simp)
  | some u =>
    rw [hr, Option.some_bind] at h
    by_cases hmem : u ∈ posted
    · rw [if_pos hmem] at h; exact absurd h (by simp)
    · rw [if_neg hmem] at h
      have h2 := Option.some.inj h
      subst h2
      exact ⟨rfl, hmem⟩

lemma newsOf_of_unseen {posted : List String} {item : RawNews} {u : String}
    (hr : resolveId item = some u) (hmem : u ∉ posted) :
    ∃ it, newsOf posted item = some it ∧ it.id = u := by
  refine ⟨⟨u, if strTruthy item.title then item.title.getD "" else "News",
    item.url, tickersOf item.ticker_sentiment⟩, ?_, rfl⟩
  unfold newsOf
  rw [hr, Option.some_bind, if_neg hmem]

/-- The identifiers that pass the dedup filter form a subsequence of the
resolvable identifiers of the feed. -/
lemma ids_filterMap_sublist (posted : List String) (feed : List RawNews) :
    ((feed.filterMap (newsOf posted)).map NewsItem.id).Sublist
      (feed.filterMap resolveId) := by
  induction feed with
  | nil => simp
  | cons a l ih =>
    cases hn : newsOf posted a with
    | some it =>
      obtain ⟨hr, _⟩ := newsOf_some hn
      rw [List.filterMap_cons_some hn, List.filterMap_cons_some hr, List.map_cons]
      exact List.Sublist.cons₂ _ ih
    | none =>
      rw [List.filterMap_cons_none hn]
      cases hr : resolveId a with
      | none => rw [List.filterMap_cons_none hr]; exact ih
      | some u =>
        rw [List.filterMap_cons_some hr]
        exact ih.cons _

lemma get_news_ids_sublist (posted : List String) (feed : List RawNews) :
    ((get_news posted feed).map NewsItem.id).Sublist (feed.filterMap resolveId) := by
  unfold get_news
  exact ((List.take_sublist _ _).map _).trans (ids_filterMap_sublist posted feed)

lemma mem_get_news {posted : List String} {feed : List RawNews} {it : NewsItem}
    (h : it ∈ get_news posted feed) :
    it.id ∉ posted ∧ ∃ raw ∈ feed, newsOf posted raw = some it := by
  unfold get_news at h
  have h2 := List.mem_of_mem_take h
  obtain ⟨raw, hraw, hn⟩ := List.mem_filterMap.mp h2
  exact ⟨(newsOf_some hn).2, raw, hraw, hn⟩

lemma get_news_length_le (posted : List String) (feed : List RawNews) :
    (get_news posted feed).length ≤ 10 :=
  List.length_take_le 10 _

/-- An item with neither a truthy uuid nor a truthy url is invisible to
the whole cycle: output and updated seen-set are as if it were absent. -/
lemma get_news_ignores_unidentified (posted : List String) (xs ys : List RawNews)
    (bad : RawNews) (hbad : resolveId bad = none) :
    get_news posted (xs ++ bad :: ys) = get_news posted (xs ++ ys) ∧
    newsCyclePosted posted (xs ++ bad :: ys) = newsCyclePosted posted (xs ++ ys) := by
  have hn : newsOf posted bad = none := by
    unfold newsOf
    rw [hbad, Option.none_bind]
  have hfm : (xs ++ bad :: ys).filterMap (newsOf posted) =
      (xs ++ ys).filterMap (newsOf posted) := by
    rw [List.filterMap_append, List.filterMap_append, List.filterMap_cons_none hn]
  constructor
  · unfold get_news
    rw [hfm]
  · unfold newsCyclePosted get_news
    rw [hfm]

lemma mem_newsCyclePosted_of_out {posted : List String} {feed : List RawNews}
    {it : NewsItem} (h : it ∈ get_news posted feed) :
    it.id ∈ newsCyclePosted posted feed := by
  unfold newsCyclePosted
  exact List.mem_append_right _ (List.mem_map_of_mem NewsItem.id h)

/-- The safety invariant of the whole news task: with per-batch duplicate
identifiers excluded, the published identifiers are pairwise distinct,
none of them was in the starting seen-set, every published identifier is
in the final seen-set, and the seen-set only grows. -/
lemma runCycles_invariant (feeds : List (List RawNews)) :
    ∀ p : List String, (∀ feed ∈ feeds, (feed.filterMap resolveId).Nodup) →
      ((runCycles p feeds).1.map NewsItem.id).Nodup ∧
      (∀ it ∈ (runCycles p feeds).1, it.id ∉ p) ∧
      (∀ s ∈ p, s ∈ (runCycles p feeds).2) ∧
      (∀ it ∈ (runCycles p feeds).1, it.id ∈ (runCycles p feeds).2) := by
  induction feeds with
  | nil =>
    intro p _
    refine ⟨by simp [runCycles], by simp [runCycles], ?_, by simp [runCycles]⟩
    intro s hs
    simpa [runCycles] using hs
  | cons feed rest ih =>
    intro p hfeeds
    have hfeed := hfeeds feed (List.mem_cons_self _ _)
    have hrest := ih (newsCyclePosted p feed)
      (fun f hf => hfeeds f (List.mem_cons_of_mem _ hf))
    have hout1 : ((get_news p feed).map NewsItem.id).Nodup :=
      (get_news_ids_sublist p feed).nodup hfeed
    have hrun : runCycles p (feed :: rest) =
        (get_news p feed ++ (runCycles (newsCyclePosted p feed) rest).1,
         (runCycles (newsCyclePosted p feed) rest).2) := rfl
    rw [hrun]
    refine ⟨?_, ?_, ?_, ?_⟩
    · rw [List.map_append, List.nodup_append]
      refine ⟨hout1, hrest.1, ?_⟩
      intro u hu1 hu2
      obtain ⟨it1, hit1, rfl⟩ := List.mem_map.mp hu1
      obtain ⟨it2, hit2, hid2⟩ := List.mem_map.mp hu2
      have hin : it1.id ∈ newsCyclePosted p feed := mem_newsCyclePosted_of_out hit1
      have hnot := hrest.2.1 it2 hit2
      rw [hid2] at hnot
      exact hnot hin
    · intro it hit
      rcases List.mem_append.mp hit with hmem | hmem
      · exact (mem_get_news hmem).1
      · intro hp
        exact hrest.2.1 it hmem (List.mem_append_left _ hp)
    · intro s hs
      exact hrest.2.2.1 s (List.mem_append_left _ hs)
    · intro it hit
      rcases List.mem_append.mp hit with hmem | hmem
      · exact hrest.2.2.1 it.id (mem_newsCyclePosted_of_out hmem)
      · exact hrest.2.2.2 it hmem

/-! ## Claim C3: output cap and surplus items -/

/-- **C3.** `get_news` returns at most 10 items, each unseen; and an
unseen identifiable item whose identifier is beyond the truncation point
(not among the returned identifiers) is not added to the seen-set by the
cycle, so a later cycle fed that item returns it. -/
theorem C3_news_cap (posted : List String) (feed : List RawNews) :
    (get_news posted feed).length ≤ 10 ∧
    (∀ it ∈ get_news posted feed, it.id ∉ posted) ∧
    (∀ raw ∈ feed, ∀ u, resolveId raw = some u → u ∉ posted →
      u ∉ (get_news posted feed).map NewsItem.id →
      u ∉ newsCyclePosted posted feed ∧
      ∃ it ∈ get_news (newsCyclePosted posted feed) [raw], it.id = u) := by
  refine ⟨get_news_length_le posted feed, ?_, ?_⟩
  · intro it hit
    exact (mem_get_news hit).1
  · intro raw _ u hres hup hout
    have hnp : u ∉ newsCyclePosted posted feed := by
      unfold newsCyclePosted
      intro hmem
      rcases List.mem_append.mp hmem with hmem | hmem
      · exact hup hmem
      · exact hout hmem
    refine ⟨hnp, ?_⟩
    obtain ⟨it, hnews, hid⟩ := newsOf_of_unseen hres hnp
    refine ⟨it, ?_, hid⟩
    unfold get_news
    rw [List.filterMap_cons_some hnews]
    simp

/-- Ten distinct identifiable items, enough to fill the output cap. -/
def feedTen : List RawNews :=
  [⟨some "a0", none, some "h", []⟩, ⟨some "a1", none, some "h", []⟩,
   ⟨some "a2", none, some "h", []⟩, ⟨some "a3", none, some "h", []⟩,
   ⟨some "a4", none, some "h", []⟩, ⟨some "a5", none, some "h", []⟩,
   ⟨some "a6", none, some "h", []⟩, ⟨some "a7", none, some "h", []⟩,
   ⟨some "a8", none, some "h", []⟩, ⟨some "a9", none, some "h", []⟩]

/-- A second batch of ten distinct identifiable items. -/
def feedTenB : List RawNews :=
  [⟨some "b0", none, some "h", []⟩, ⟨some "b1", none, some "h", []⟩,
   ⟨some "b2", none, some "h", []⟩, ⟨some "b3", none, some "h", []⟩,
   ⟨some "b4", none, some "h", []⟩, ⟨some "b5", none, some "h", []⟩,
   ⟨some "b6", none, some "h", []⟩, ⟨some "b7", none, some "h", []⟩,
   ⟨some "b8", none, some "h", []⟩, ⟨some "b9", none, some "h", []⟩]

/-- The eleventh item, pushed beyond the cap by the ten before it. -/
def itemT : RawNews := ⟨some "t", none, some "h", []⟩

theorem C3_news_cap_witness :
    "t" ∉ newsCyclePosted [] (feedTen ++ [itemT]) ∧
    ∃ it ∈ get_news (newsCyclePosted [] (feedTen ++ [itemT])) [itemT], it.id = "t" :=
  (C3_news_cap [] (feedTen ++ [itemT])).2.2 itemT (by decide) "t" (by decide)
    (by decide) (by decide)

/-! ## Claim C8: no re-publication across the process lifetime -/

/-- **C8 (counterexample).** A single fetched batch holding the same
identifier twice defeats the claim: `get_news` only filters against the
seen-set, which is updated after the whole batch is selected, so both
copies pass and `news_loop` publishes the id twice. -/
theorem C8_no_republish_counterexample :
    ((runCycles [] [[⟨some "a", none, some "h", []⟩,
      ⟨some "a", none, some "h", []⟩]]).1.map NewsItem.id).count "a" = 2 := by
  decide

/-- **C8 (amended).** Provided every single fetched batch contains each
resolvable identifier at most once, each identifier occurs in the
published output at most once across the whole run (the published
identifiers are pairwise distinct and none of them was already seen at
the start); a batch with an intra-batch duplicate identifier can publish
that identifier twice. -/
theorem C8_no_republish_amended (p : List String) (feeds : List (List RawNews))
    (hfeeds : ∀ feed ∈ feeds, (feed.filterMap resolveId).Nodup) :
    ((runCycles p feeds).1.map NewsItem.id).Nodup ∧
    (∀ it ∈ (runCycles p feeds).1, it.id ∉ p) ∧
    (∀ u : String, ((runCycles p feeds).1.map NewsItem.id).count u ≤ 1) := by
  obtain ⟨hnodup, hinit, -, -⟩ := runCycles_invariant feeds p hfeeds
  exact ⟨hnodup, hinit, List.nodup_iff_count_le_one.mp hnodup⟩

theorem C8_no_republish_amended_witness :
    ((runCycles [] [[⟨some "a", none, some "h", []⟩],
      [⟨some "a", none, some "h", []⟩]]).1.map NewsItem.id).Nodup :=
  (C8_no_republish_amended [] [[⟨some "a", none, some "h", []⟩],
    [⟨some "a", none, some "h", []⟩]] (by decide)).1

/-! ## Claim C9: two-cycle deduplication -/

/-- **C9 (counterexample).** The claim promises an id fed in two
consecutive cycles appears in the output exactly once; the 10-item cap
falsifies it: `"t"` is the 11th unseen item of both cycles (its resolved
id occurs once in each feed), is truncated away both times, and appears
zero times in the output. -/
theorem C9_news_dedup_counterexample :
    ((get_news [] (feedTen ++ [itemT]) ++
      get_news (newsCyclePosted [] (feedTen ++ [itemT])) (feedTenB ++ [itemT])).map
        NewsItem.id).count "t" = 0 ∧
    ((feedTen ++ [itemT]).filterMap resolveId).count "t" = 1 ∧
    ((feedTenB ++ [itemT]).filterMap resolveId).count "t" = 1 := by
  refine ⟨by decide, by decide, by decide⟩

/-- **C9 (amended).** Over two consecutive cycles whose batches each
contain a resolvable identifier at most once, an identifier appears in
the combined output at most once — exactly once whenever it is emitted
(within the 10-item cap) in the first cycle; and an item lacking both a
truthy id and a truthy url is excluded from the output and leaves the
seen-set untouched. -/
theorem C9_news_dedup_amended (p : List String) (feed1 feed2 : List RawNews)
    (h1 : (feed1.filterMap resolveId).Nodup) (h2 : (feed2.filterMap resolveId).Nodup) :
    (∀ u ∈ (get_news p feed1).map NewsItem.id,
      ((get_news p feed1 ++ get_news (newsCyclePosted p feed1) feed2).map
        NewsItem.id).count u = 1) ∧
    (∀ u : String,
      ((get_news p feed1 ++ get_news (newsCyclePosted p feed1) feed2).map
        NewsItem.id).count u ≤ 1) ∧
    (∀ xs ys bad, feed1 = xs ++ bad :: ys → resolveId bad = none →
      get_news p feed1 = get_news p (xs ++ ys) ∧
      newsCyclePosted p feed1 = newsCyclePosted p (xs ++ ys)) := by
  have hnod1 : ((get_news p feed1).map NewsItem.id).Nodup :=
    (get_news_ids_sublist p feed1).nodup h1
  have hnod2 : ((get_news (newsCyclePosted p feed1) feed2).map NewsItem.id).Nodup :=
    (get_news_ids_sublist (newsCyclePosted p feed1) feed2).nodup h2
  have hdisj : ∀ u ∈ (get_news p feed1).map NewsItem.id,
      u ∉ (get_news (newsCyclePosted p feed1) feed2).map NewsItem.id := by
    intro u hu1 hu2
    obtain ⟨it1, hit1, rfl⟩ := List.mem_map.mp hu1
    obtain ⟨it2, hit2, hid2⟩ := List.mem_map.mp hu2
    have hnot := (mem_get_news hit2).1
    rw [hid2] at hnot
    exact hnot (mem_newsCyclePosted_of_out hit1)
  refine ⟨?_, ?_, ?_⟩
  · intro u hu
    rw [List.map_append, List.count_append,
      List.count_eq_one_of_mem hnod1 hu,
      List.count_eq_zero.mpr (hdisj u hu)]
  · intro u
    rw [List.map_append, List.count_append]
    by_cases hu : u ∈ (get_news p feed1).map NewsItem.id
    · rw [List.count_eq_one_of_mem hnod1 hu,
        List.count_eq_zero.mpr (hdisj u hu)]
    · rw [List.count_eq_zero.mpr hu]
      simpa using List.nodup_iff_count_le_one.mp hnod2 u
  · rintro xs ys bad rfl hbad
    exact get_news_ignores_unidentified p xs ys bad hbad

theorem C9_news_dedup_amended_witness :
    ((get_news [] [⟨some "x", none, some "h", []⟩] ++
      get_news (newsCyclePosted [] [⟨some "x", none, some "h", []⟩])
        [⟨some "x", none, some "h", []⟩]).map NewsItem.id).count "x" = 1 :=
  (C9_news_dedup_amended [] [⟨some "x", none, some "h", []⟩]
      [⟨some "x", none, some "h", []⟩] (by decide) (by decide)).1 "x" (by decide)

/-! ## Bar-series parser lemmas -/

/-- The row a well-formed bar contributes:
`(close, (high, low, close), int(volume))`. -/
def barRow (b : RawBar) : ℚ × (ℚ × ℚ × ℚ) × ℤ :=
  (b.close.getD 0, (b.high.getD 0, b.low.getD 0, b.close.getD 0),
    truncInt (b.volume.getD 0))

lemma barValues_eq_barRow {b : RawBar} (h : (barValues b).isSome) :
    barValues b = some (barRow b) := by
  cases hc : b.close <;> cases hh : b.high <;> cases hl : b.low <;>
    cases hv : b.volume <;> simp_all [barValues, barRow]

lemma optTraverse_eq_map {α β : Type} (f : α → Option β) (g : α → β) :
    ∀ l : List α, (∀ x ∈ l, f x = some (g x)) → optTraverse f l = some (l.map g) := by
  intro l
  induction l with
  | nil => intro _; rfl
  | cons x xs ih =>
    intro h
    have hx := h x (List.mem_cons_self x xs)
    have hxs := ih (fun y hy => h y (List.mem_cons_of_mem x hy))
    unfold optTraverse
    rw [hx, hxs, List.map_cons]

lemma optTraverse_eq_none {α β : Type} (f : α → Option β) :
    ∀ l : List α, ∀ x ∈ l, f x = none → optTraverse f l = none := by
  intro l
  induction l with
  | nil => intro x hx; exact absurd hx (by simp)
  | cons a xs ih =>
    intro x hx hfx
    rcases List.mem_cons.mp hx with rfl | hmem
    · unfold optTraverse
      rw [hfx]
    · unfold optTraverse
      rw [ih x hmem hfx]
      cases f a <;> rfl

lemma sortItems_perm (ts : List (String × RawBar)) : (sortItems ts).Perm ts :=
  List.mergeSort_perm ts _

lemma sortItems_sorted_le (ts : List (String × RawBar)) :
    ((sortItems ts).map Prod.fst).Sorted (· ≤ ·) := by
  have h := @List.sorted_mergeSort (String × RawBar)
    (fun a b => decide (a.1 ≤ b.1))
    (fun a b c hab hbc =>
      decide_eq_true (le_trans (of_decide_eq_true hab) (of_decide_eq_true hbc)))
    (fun a b => by
      show (decide (a.1 ≤ b.1) || decide (b.1 ≤ a.1)) = true
      rcases le_total a.1 b.1 with h | h
      · rw [decide_eq_true h, Bool.true_or]
      · rw [decide_eq_true h, Bool.or_true])
    ts
  rw [List.Sorted, List.pairwise_map]
  exact h.imp (fun hab => of_decide_eq_true hab)

lemma sortItems_sorted_lt (ts : List (String × RawBar))
    (hkeys : (ts.map Prod.fst).Nodup) :
    ((sortItems ts).map Prod.fst).Sorted (· < ·) := by
  have hperm : ((sortItems ts).map Prod.fst).Perm (ts.map Prod.fst) :=
    (sortItems_perm ts).map Prod.fst
  have hnd : ((sortItems ts).map Prod.fst).Nodup := hperm.symm.nodup hkeys
  have hle := sortItems_sorted_le ts
  rw [List.Sorted] at hle ⊢
  exact (hle.and hnd).imp (fun hab => lt_of_le_of_ne hab.1 hab.2)

lemma sortItems_eq_of_perm {ts₁ ts₂ : List (String × RawBar)}
    (hp : ts₁.Perm ts₂) (hkeys : (ts₁.map Prod.fst).Nodup) :
    sortItems ts₁ = sortItems ts₂ := by
  haveI : IsAntisymm (String × RawBar) (fun a b => a.1 < b.1) :=
    ⟨fun a b h1 h2 => absurd (h1.trans h2) (lt_irrefl _)⟩
  have hkeys₂ : (ts₂.map Prod.fst).Nodup := (hp.map Prod.fst).nodup hkeys
  have hperm : (sortItems ts₁).Perm (sortItems ts₂) :=
    ((sortItems_perm ts₁).trans hp).trans (sortItems_perm ts₂).symm
  have hs₁ : (sortItems ts₁).Sorted (fun a b => a.1 < b.1) :=
    List.pairwise_map.mp (sortItems_sorted_lt ts₁ hkeys)
  have hs₂ : (sortItems ts₂).Sorted (fun a b => a.1 < b.1) :=
    List.pairwise_map.mp (sortItems_sorted_lt ts₂ hkeys₂)
  exact List.eq_of_perm_of_sorted hperm hs₁ hs₂

lemma pairwise_rel_getLast {α : Type} {r : α → α → Prop} (hrefl : ∀ a, r a a) :
    ∀ {l : List α}, l.Pairwise r → ∀ (hne : l ≠ []) (x), x ∈ l → r x (l.getLast hne) := by
  intro l
  induction l with
  | nil => intro _ hne; exact absurd rfl hne
  | cons a t ih =>
    intro hp hne x hx
    cases t with
    | nil =>
      have hxa : x = a := by simpa using hx
      subst hxa
      exact hrefl x
    | cons b t2 =>
      rw [List.getLast_cons (by simp : b :: t2 ≠ [])]
      rcases List.mem_cons.mp hx with rfl | hx2
      · exact (List.pairwise_cons.mp hp).1 _ (List.getLast_mem _)
      · exact ih (List.pairwise_cons.mp hp).2 (by simp) x hx2

/-! ## Claim C6: parser sortedness and order invariance -/

/-- **C6.** For a nonempty well-formed payload with pairwise-distinct
timestamp keys (dict semantics), `parse_intraday` emits its four parallel
outputs as maps over `sortItems ts`, a permutation of the input sorted
strictly ascending by timestamp; the whole result is invariant under any
permutation of the input entries; and the returned last close is the
close of the entry with the greatest timestamp. -/
theorem C6_parser_order_invariance (ts : List (String × RawBar))
    (hne : ts ≠ []) (hkeys : (ts.map Prod.fst).Nodup)
    (hwf : ∀ kv ∈ ts, (barValues kv.2).isSome) :
    (sortItems ts).Perm ts ∧
    ((sortItems ts).map Prod.fst).Sorted (· < ·) ∧
    (∀ ts2, ts.Perm ts2 → parse_intraday (some ts) = parse_intraday (some ts2)) ∧
    (∃ hne2 : sortItems ts ≠ [],
      parse_intraday (some ts) = some
        ((sortItems ts).map (fun kv => (barRow kv.2).1),
         (sortItems ts).map (fun kv => (barRow kv.2).2.1),
         (sortItems ts).map (fun kv => (barRow kv.2).2.2),
         (barRow ((sortItems ts).getLast hne2).2).1) ∧
      (sortItems ts).getLast hne2 ∈ ts ∧
      (∀ kv ∈ ts, kv.1 ≤ ((sortItems ts).getLast hne2).1)) := by
  have hperm := sortItems_perm ts
  have hne2 : sortItems ts ≠ [] := by
    intro h
    apply hne
    exact List.perm_nil.mp (h ▸ hperm.symm)
  refine ⟨hperm, sortItems_sorted_lt ts hkeys, ?_, hne2, ?_, ?_, ?_⟩
  · intro ts2 hp
    have hne3 : ts2 ≠ [] := by
      intro h
      exact hne (List.perm_nil.mp (h ▸ hp))
    have heq := sortItems_eq_of_perm hp hkeys
    simp only [parse_intraday, Option.getD_some, if_neg hne, if_neg hne3, heq]
  · have hwf2 : ∀ kv ∈ sortItems ts, (fun kv : String × RawBar => barValues kv.2) kv =
        some ((fun kv : String × RawBar => barRow kv.2) kv) :=
      fun kv hkv => barValues_eq_barRow (hwf kv (hperm.subset hkv))
    have htrav := optTraverse_eq_map _ _ (sortItems ts) hwf2
    have hmapne : (sortItems ts).map (fun kv : String × RawBar => (barRow kv.2).1) ≠ [] := by
      simp [hne2]
    have hlast : ((sortItems ts).map (fun kv : String × RawBar => (barRow kv.2).1)).getLast?
        = some ((barRow ((sortItems ts).getLast hne2).2).1) := by
      rw [List.getLast?_eq_getLast _ hmapne, List.getLast_map]
    simp only [parse_intraday, Option.getD_some, if_neg hne, htrav, List.map_map,
      Function.comp_def]
    rw [hlast]
  · exact hperm.subset (List.getLast_mem hne2)
  · intro kv hkv
    have hmem : kv ∈ sortItems ts := hperm.mem_iff.mpr hkv
    have hpw : (sortItems ts).Pairwise (fun a b : String × RawBar => a.1 ≤ b.1) :=
      List.pairwise_map.mp (sortItems_sorted_le ts)
    exact pairwise_rel_getLast (r := fun a b : String × RawBar => a.1 ≤ b.1)
      (fun a => le_refl a.1) hpw hne2 kv hmem

theorem C6_parser_order_invariance_witness :
    parse_intraday (some [("2", ⟨some 12, some 10, some 11, some 300⟩),
      ("1", ⟨some 10, some 8, some 9, some 100⟩)]) =
    parse_intraday (some [("1", ⟨some 10, some 8, some 9, some 100⟩),
      ("2", ⟨some 12, some 10, some 11, some 300⟩)]) :=
  (C6_parser_order_invariance
    [("2", ⟨some 12, some 10, some 11, some 300⟩),
     ("1", ⟨some 10, some 8, some 9, some 100⟩)]
    (by decide) (by decide) (by decide)).2.2.1
    [("1", ⟨some 10, some 8, some 9, some 100⟩),
     ("2", ⟨some 12, some 10, some 11, some 300⟩)] (by decide)

/-! ## Claim C7: parser error handling -/

/-- **C7.** For every payload, `parse_intraday` is a total function
returning `none` (never an exception: every raising Python path is a
`none` of the embedding, caught by the function's own handler) on the
empty payload, on a payload missing the time-series key, and on any
payload containing a bar with a missing or malformed field — in the last
case the whole result is `none`, never a partial parse. -/
theorem C7_parser_error_handling (ts : List (String × RawBar)) :
    parse_intraday none = none ∧
    parse_intraday (some []) = none ∧
    (∀ kv ∈ ts, barValues kv.2 = none → parse_intraday (some ts) = none) := by
  refine ⟨rfl, rfl, ?_⟩
  intro kv hkv hbad
  have hne : ts ≠ [] := by
    intro h
    rw [h] at hkv
    exact absurd hkv (by simp)
  have hmem : kv ∈ sortItems ts := (sortItems_perm ts).mem_iff.mpr hkv
  have htrav := optTraverse_eq_none (fun kv : String × RawBar => barValues kv.2)
    (sortItems ts) kv hmem hbad
  simp only [parse_intraday, Option.getD_some, if_neg hne, htrav]

theorem C7_parser_error_handling_witness :
    parse_intraday (some [("1", ⟨some 10, some 8, some 9, none⟩),
      ("2", ⟨some 12, some 10, some 11, some 300⟩)]) = none :=
  (C7_parser_error_handling [("1", ⟨some 10, some 8, some 9, none⟩),
      ("2", ⟨some 12, some 10, some 11, some 300⟩)]).2.2
    ("1", ⟨some 10, some 8, some 9, none⟩) (by decide) rfl

end StockBot
